import Mathlib

/-!
Verification of the Twig tree-sitter external scanner
(`src/internal/tree_sitter_grammars/twig/src/scanner.c`).

The scanner is a pure decision procedure over a character cursor: it skips
whitespace, then tries three matchers in sequence (HTML content run,
directive-content run, comment), returning the first successful kind.
We embed the cursor as a record holding the unconsumed remainder of the
input together with the absolute read position and the absolute
`mark_end` position, and translate each C loop into a structural
recursion on the remainder list.
-/

namespace TwigScanner

/-- The token kinds, in the declaration order of the C `enum TokenType`. -/
inductive TokenType where
  | CONTENT
  | COMMENT
  | HTML_CONTENT
  deriving DecidableEq, Repr

open TokenType

/-- The numeric ordinal of each token kind, as assigned by the C `enum`
(`CONTENT = 0`, `COMMENT = 1`, `HTML_CONTENT = 2`). -/
def TokenType.ordinal : TokenType → Nat
  | CONTENT => 0
  | COMMENT => 1
  | HTML_CONTENT => 2

/-- The lexer state: the unconsumed remainder of the input, the absolute
read position (`advance` increments it), and the absolute position last
committed by `mark_end`. -/
structure St where
  rest : List Char
  pos : Nat
  mark : Nat
  deriving DecidableEq, Repr

/-- C-locale `iswspace`: the six ASCII whitespace characters. -/
def iswspace (c : Char) : Bool :=
  c = ' ' || c = '\t' || c = '\n' || c = '\x0b' || c = '\x0c' || c = '\r'

/-- The whitespace-skipping loop at the top of the scan
(`while (iswspace(lexer->lookahead)) advance(lexer, true)`): returns the
remainder and the new read position.  Skipped characters are not marked. -/
def skipWsL : List Char → Nat → List Char × Nat
  | [], p => ([], p)
  | c :: rest, p => if iswspace c then skipWsL rest (p + 1) else (c :: rest, p)

/-- Guard of the HTML_CONTENT branch:
`lexer->lookahead != '<' && lexer->lookahead != '{'`.  At end of input the
lookahead is the 0 sentinel, which differs from both characters, so the
guard holds on the empty remainder. -/
def htmlGuard : List Char → Bool
  | [] => true
  | c :: _ => if c = '<' ∨ c = '{' then false else true

/-- A character the HTML loop keeps consuming (neither `<` nor `{`). -/
def keepHtml (c : Char) : Bool :=
  if c = '<' ∨ c = '{' then false else true

/-- The HTML_CONTENT loop: consume and mark characters until the lookahead
is `<`, `{`, or end of input; the Bool accumulator is `has_content`. -/
def htmlLoop : List Char → Nat → Nat → Bool → St × Bool
  | [], p, m, h => (⟨[], p, m⟩, h)
  | c :: rest, p, m, h =>
    if c = '<' ∨ c = '{' then (⟨c :: rest, p, m⟩, h)
    else htmlLoop rest (p + 1) (p + 1) true

/-- The CONTENT loop.  On `{` the character is consumed tentatively; if the
next lookahead is `{`, `%`, or `#` the loop breaks without marking the `{`
(the break leaves the read position one past the still-unmarked `{`);
otherwise the consumption is marked and the loop continues.  `<` stops the
loop without consuming; any other character is consumed and marked. -/
def contentLoop : List Char → Nat → Nat → Bool → St × Bool
  | [], p, m, h => (⟨[], p, m⟩, h)
  | c :: rest, p, m, h =>
    if c = '{' then
      match rest with
      | [] => (⟨[], p + 1, p + 1⟩, true)
      | d :: rest2 =>
        if d = '{' ∨ d = '%' ∨ d = '#' then (⟨d :: rest2, p + 1, m⟩, h)
        else contentLoop (d :: rest2) (p + 1) (p + 1) true
    else if c = '<' then (⟨c :: rest, p, m⟩, h)
    else contentLoop rest (p + 1) (p + 1) true

/-- The COMMENT loop, entered after the opening `#` has been consumed.
Each iteration first marks the current position; on `#` it advances and
checks for `}`: a match consumes the `}`, marks past it and succeeds; a
mismatch falls through to the unconditional `advance`, so the character
after the failed `#` is consumed without being examined.  Reaching end of
input fails. -/
def commentLoop : List Char → Nat → Nat → St × Bool
  | [], p, m => (⟨[], p, m⟩, false)
  | c :: rest, p, m =>
    if c = '#' then
      match rest with
      | [] => (⟨[], p + 1, p⟩, false)
      | d :: rest2 =>
        if d = '}' then (⟨rest2, p + 2, p + 2⟩, true)
        else commentLoop rest2 (p + 2) p
    else commentLoop rest (p + 1) p

/-- Third phase of the scan: the comment branch.  Not gated by
`valid_symbols`; it fires whenever the current lookahead is `#`. -/
def commentPhase (st2 : St) : St × Option TokenType :=
  match st2.rest with
  | [] => (st2, none)
  | c :: rest =>
    if c = '#' then
      match commentLoop rest (st2.pos + 1) st2.mark with
      | (st, true) => (st, some COMMENT)
      | (st, false) => (st, none)
    else (st2, none)

/-- Second phase: the CONTENT branch, gated by `valid_symbols[CONTENT]`;
falls through to the comment phase with whatever lexer state the loop
left behind. -/
def contentPhase (st1 : St) (valid : TokenType → Bool) : St × Option TokenType :=
  if valid CONTENT then
    match contentLoop st1.rest st1.pos st1.mark false with
    | (st, true) => (st, some CONTENT)
    | (st, false) => commentPhase st
  else commentPhase st1

/-- First phase: the HTML_CONTENT branch, gated by
`valid_symbols[HTML_CONTENT]` and by the lookahead guard; falls through
to the content phase on failure. -/
def htmlPhase (st0 : St) (valid : TokenType → Bool) : St × Option TokenType :=
  if valid HTML_CONTENT && htmlGuard st0.rest then
    match htmlLoop st0.rest st0.pos st0.mark false with
    | (st, true) => (st, some HTML_CONTENT)
    | (st, false) => contentPhase st valid
  else contentPhase st0 valid

/-- The full scan, modelling `tree_sitter_twig_external_scanner_scan`:
skip whitespace, then try the three matchers in order.  Returns the final
lexer state (read position and committed `mark_end`) together with
`some kind` when the C function returns `true` with `result_symbol = kind`,
and `none` when it returns `false`.  On success the emitted token spans
positions `[startPos, mark)` where `startPos` is the position right after
the skipped whitespace. -/
def scan (input : List Char) (valid : TokenType → Bool) : St × Option TokenType :=
  let ws := skipWsL input 0
  htmlPhase ⟨ws.1, ws.2, ws.2⟩ valid

/-- Requested-kinds set with only HTML_CONTENT. -/
def onlyHTML : TokenType → Bool
  | HTML_CONTENT => true
  | _ => false

/-- Requested-kinds set with only CONTENT. -/
def onlyCONTENT : TokenType → Bool
  | CONTENT => true
  | _ => false

/-- Requested-kinds set with both HTML_CONTENT and CONTENT. -/
def bothHC : TokenType → Bool
  | HTML_CONTENT => true
  | CONTENT => true
  | _ => false

/-- The empty requested-kinds set. -/
def noneValid : TokenType → Bool := fun _ => false

/-- Whether the comment loop's scanning discipline finds a closer `#}` in
the given comment body: on `#` it inspects exactly the next character, and
on a mismatch skips both. -/
def closerFound : List Char → Bool
  | [] => false
  | c :: rest =>
    if c = '#' then
      match rest with
      | [] => false
      | d :: rest2 => if d = '}' then true else closerFound rest2
    else closerFound rest

/-- Whether the two-character substring `#}` occurs anywhere in the list. -/
def hasCloser : List Char → Bool
  | c :: d :: rest => if c = '#' ∧ d = '}' then true else hasCloser (d :: rest)
  | _ => false

/-! ### Helper lemmas about the loops -/

theorem scan_def (input : List Char) (valid : TokenType → Bool) :
    scan input valid =
      htmlPhase ⟨(skipWsL input 0).1, (skipWsL input 0).2, (skipWsL input 0).2⟩ valid := rfl

theorem skipWsL_allWs (l : List Char) : ∀ p : Nat, (∀ c ∈ l, iswspace c = true) →
    skipWsL l p = ([], p + l.length) := by
  induction l with
  | nil => intro p _; simp [skipWsL]
  | cons c rest ih =>
    intro p hws
    have hc : iswspace c = true := hws c (by simp)
    have := ih (p + 1) (fun x hx => hws x (by simp [hx]))
    simp [skipWsL, hc, this]
    omega

theorem htmlLoop_takeWhile (l : List Char) : ∀ (p m : Nat) (h : Bool),
    htmlLoop l p m h =
      if (l.takeWhile keepHtml).length = 0 then (⟨l, p, m⟩, h)
      else (⟨l.drop (l.takeWhile keepHtml).length,
             p + (l.takeWhile keepHtml).length,
             p + (l.takeWhile keepHtml).length⟩, true) := by
  induction l with
  | nil => intro p m h; simp [htmlLoop]
  | cons c rest ih =>
    intro p m h
    by_cases hc : c = '<' ∨ c = '{'
    · have hk : keepHtml c = false := by simp [keepHtml, hc]
      simp [htmlLoop, hc, List.takeWhile_cons, hk]
    · have hk : keepHtml c = true := by simp [keepHtml, hc]
      have hrec := ih (p + 1) (p + 1) true
      simp only [htmlLoop, if_neg hc, List.takeWhile_cons, hk, if_true, List.length_cons,
        Nat.succ_ne_zero, if_false, hrec]
      by_cases h0 : (rest.takeWhile keepHtml).length = 0
      · simp [h0]
      · simp [h0, List.drop_succ_cons]
        omega

theorem contentLoop_trueAcc (l : List Char) : ∀ (p m : Nat),
    (contentLoop l p m true).2 = true := by
  induction l with
  | nil => intro p m; simp [contentLoop]
  | cons c rest ih =>
    intro p m
    cases rest with
    | nil =>
      by_cases hc : c = '{'
      · simp [contentLoop, hc]
      · by_cases hlt : c = '<' <;> simp [contentLoop, hc, hlt]
    | cons d rest2 =>
      by_cases hc : c = '{'
      · by_cases hd : d = '{' ∨ d = '%' ∨ d = '#'
        · simp [contentLoop, hc, hd]
        · simpa [contentLoop, hc, hd] using ih (p + 1) (p + 1)
      · by_cases hlt : c = '<'
        · simp [contentLoop, hc, hlt]
        · simpa [contentLoop, hc, hlt] using ih (p + 1) (p + 1)

theorem contentLoop_stop (l : List Char) : ∀ (p : Nat) (h : Bool),
    p ≤ (contentLoop l p p h).1.mark ∧
      ((contentLoop l p p h).2 = true →
        (contentLoop l p p h).1.pos = (contentLoop l p p h).1.mark ∨
          ((contentLoop l p p h).1.pos = (contentLoop l p p h).1.mark + 1 ∧
            l.drop ((contentLoop l p p h).1.mark - p) = '{' :: (contentLoop l p p h).1.rest ∧
            ∃ d r, (contentLoop l p p h).1.rest = d :: r ∧
              (d = '{' ∨ d = '%' ∨ d = '#'))) := by
  induction l with
  | nil => intro p h; simp [contentLoop]
  | cons c rest ih =>
    intro p h
    cases rest with
    | nil =>
      by_cases hc : c = '{'
      · simp [contentLoop, hc]
      · by_cases hlt : c = '<' <;> simp [contentLoop, hc, hlt]
    | cons d rest2 =>
      by_cases hc : c = '{'
      · by_cases hd : d = '{' ∨ d = '%' ∨ d = '#'
        · simp only [contentLoop, if_pos hc, if_pos hd]
          refine ⟨Nat.le_refl _, fun _ => Or.inr ⟨trivial, ?_, d, rest2, rfl, hd⟩⟩
          simp [hc]
        · simp only [contentLoop, if_pos hc, if_neg hd]
          obtain ⟨hm, hsh⟩ := ih (p + 1) true
          refine ⟨by omega, fun hb => ?_⟩
          rcases hsh hb with h1 | ⟨h1, h2, h3⟩
          · exact Or.inl h1
          · refine Or.inr ⟨h1, ?_, h3⟩
            have hsm : (contentLoop (d :: rest2) (p + 1) (p + 1) true).1.mark - p =
                ((contentLoop (d :: rest2) (p + 1) (p + 1) true).1.mark - (p + 1)) + 1 := by
              omega
            rw [hsm, List.drop_succ_cons]
            exact h2
      · by_cases hlt : c = '<'
        · simp [contentLoop, hc, hlt]
        · simp only [contentLoop, if_neg hc, if_neg hlt]
          obtain ⟨hm, hsh⟩ := ih (p + 1) true
          refine ⟨by omega, fun hb => ?_⟩
          rcases hsh hb with h1 | ⟨h1, h2, h3⟩
          · exact Or.inl h1
          · refine Or.inr ⟨h1, ?_, h3⟩
            have hsm : (contentLoop (d :: rest2) (p + 1) (p + 1) true).1.mark - p =
                ((contentLoop (d :: rest2) (p + 1) (p + 1) true).1.mark - (p + 1)) + 1 := by
              omega
            rw [hsm, List.drop_succ_cons]
            exact h2

theorem contentLoop_decline (l : List Char) (p : Nat)
    (hfail : (contentLoop l p p false).2 = false) :
    (contentLoop l p p false).1 = ⟨l, p, p⟩ ∨
      ∃ d r, l = '{' :: d :: r ∧ (d = '{' ∨ d = '%' ∨ d = '#') ∧
        (contentLoop l p p false).1 = ⟨d :: r, p + 1, p⟩ := by
  cases l with
  | nil => left; simp [contentLoop]
  | cons c rest =>
    cases rest with
    | nil =>
      by_cases hc : c = '{'
      · simp [contentLoop, hc] at hfail
      · by_cases hlt : c = '<'
        · left; simp [contentLoop, hc, hlt]
        · simp [contentLoop, hc, hlt] at hfail
    | cons d rest2 =>
      by_cases hc : c = '{'
      · by_cases hd : d = '{' ∨ d = '%' ∨ d = '#'
        · right
          refine ⟨d, rest2, by rw [hc], hd, ?_⟩
          simp [contentLoop, hc, hd]
        · exfalso
          simp only [contentLoop, if_pos hc, if_neg hd] at hfail
          rw [contentLoop_trueAcc (d :: rest2) (p + 1) (p + 1)] at hfail
          exact Bool.noConfusion hfail
      · by_cases hlt : c = '<'
        · left; simp [contentLoop, hc, hlt]
        · exfalso
          simp only [contentLoop, if_neg hc, if_neg hlt] at hfail
          rw [contentLoop_trueAcc (d :: rest2) (p + 1) (p + 1)] at hfail
          exact Bool.noConfusion hfail

theorem commentLoop_closerFound : ∀ (l : List Char) (p m : Nat),
    (commentLoop l p m).2 = closerFound l
  | [], _, _ => rfl
  | [c], p, m => by
    by_cases hc : c = '#' <;> simp [commentLoop, closerFound, hc]
  | c :: d :: rest2, p, m => by
    by_cases hc : c = '#'
    · by_cases hd : d = '}'
      · simp [commentLoop, closerFound, hc, hd]
      · simpa [commentLoop, closerFound, hc, hd] using
          commentLoop_closerFound rest2 (p + 2) p
    · simpa [commentLoop, closerFound, hc] using
        commentLoop_closerFound (d :: rest2) (p + 1) p

theorem hasCloser_cons (c : Char) (l : List Char) (h : hasCloser l = true) :
    hasCloser (c :: l) = true := by
  cases l with
  | nil => simp [hasCloser] at h
  | cons d rest =>
    by_cases hcd : c = '#' ∧ d = '}' <;> simp [hasCloser, hcd, h]

theorem closerFound_imp_hasCloser : ∀ (l : List Char),
    closerFound l = true → hasCloser l = true
  | [], h => by simp [closerFound] at h
  | [c], h => by by_cases hc : c = '#' <;> simp [closerFound, hc] at h
  | c :: d :: rest2, h => by
    by_cases hc : c = '#'
    · by_cases hd : d = '}'
      · simp [hasCloser, hc, hd]
      · have h2 : closerFound rest2 = true := by simpa [closerFound, hc, hd] using h
        exact hasCloser_cons c (d :: rest2)
          (hasCloser_cons d rest2 (closerFound_imp_hasCloser rest2 h2))
    · have h2 : closerFound (d :: rest2) = true := by simpa [closerFound, hc] using h
      exact hasCloser_cons c (d :: rest2) (closerFound_imp_hasCloser (d :: rest2) h2)

theorem hasCloser_tail (c : Char) (l : List Char) (h : hasCloser (c :: l) = false) :
    hasCloser l = false := by
  cases l with
  | nil => rfl
  | cons d rest =>
    by_cases hcd : c = '#' ∧ d = '}'
    · simp [hasCloser, hcd] at h
    · simpa [hasCloser, hcd] using h

theorem commentLoop_step (c : Char) (t : List Char) (p m : Nat) (hc : c ≠ '#') :
    commentLoop (c :: t) p m = commentLoop t (p + 1) p := by
  cases t with
  | nil => simp [commentLoop, hc]
  | cons d r => simp [commentLoop, hc]

theorem commentLoop_hashstep (c : Char) (t : List Char) (p m : Nat) (hc : c ≠ '}') :
    commentLoop ('#' :: c :: t) p m = commentLoop t (p + 2) p := by
  simp [commentLoop, hc]

theorem commentLoop_close (t : List Char) (p m : Nat) :
    commentLoop ('#' :: '}' :: t) p m = (⟨t, p + 2, p + 2⟩, true) := by
  simp [commentLoop]

theorem commentLoop_skipRun : ∀ (w l : List Char) (p m : Nat), (∀ x ∈ w, x ≠ '#') →
    ∃ m2, commentLoop (w ++ l) p m = commentLoop l (p + w.length) m2 := by
  intro w
  induction w with
  | nil => intro l p m _; exact ⟨m, by simp⟩
  | cons c w' ih =>
    intro l p m hw
    have hc : c ≠ '#' := hw c (by simp)
    obtain ⟨m2, hm2⟩ := ih l (p + 1) p (fun x hx => hw x (by simp [hx]))
    refine ⟨m2, ?_⟩
    have hstep : commentLoop ((c :: w') ++ l) p m = commentLoop (w' ++ l) (p + 1) p :=
      commentLoop_step c (w' ++ l) p m hc
    rw [hstep, hm2]
    have harith : p + 1 + w'.length = p + (c :: w').length := by simp; omega
    rw [harith]

theorem scan_hash_noneValid (t : List Char) :
    scan ('#' :: t) noneValid = commentPhase ⟨'#' :: t, 0, 0⟩ := by
  have h1 : iswspace '#' = false := by decide
  simp [scan, skipWsL, h1, htmlPhase, contentPhase, noneValid]

theorem commentPhase_kind (st st' : St) (k : TokenType)
    (h : commentPhase st = (st', some k)) : k = COMMENT := by
  obtain ⟨rest0, pos0, mark0⟩ := st
  cases rest0 with
  | nil => simp [commentPhase] at h
  | cons c rest =>
    by_cases hc : c = '#'
    · rcases hcl : commentLoop rest (pos0 + 1) mark0 with ⟨st2, b⟩
      cases b
      · simp [commentPhase, hc, hcl] at h
      · simp [commentPhase, hc, hcl] at h
        exact h.2.symm
    · simp [commentPhase, hc] at h

theorem contentPhase_kind (st st' : St) (valid : TokenType → Bool) (k : TokenType)
    (h : contentPhase st valid = (st', some k)) : k = COMMENT ∨ valid k = true := by
  by_cases hv : valid CONTENT
  · rcases hcl : contentLoop st.rest st.pos st.mark false with ⟨st2, b⟩
    cases b
    · have h2 : commentPhase st2 = (st', some k) := by
        simpa [contentPhase, hv, hcl] using h
      exact Or.inl (commentPhase_kind st2 st' k h2)
    · have hk : k = CONTENT := by
        simp [contentPhase, hv, hcl] at h
        exact h.2.symm
      rw [hk]
      exact Or.inr hv
  · have h2 : commentPhase st = (st', some k) := by
      simpa [contentPhase, hv] using h
    exact Or.inl (commentPhase_kind st st' k h2)

theorem scan_none_of_emptyRest (input : List Char) (valid : TokenType → Bool) (p0 : Nat)
    (hws : skipWsL input 0 = ([], p0)) : scan input valid = (⟨[], p0, p0⟩, none) := by
  rw [scan_def, hws]
  by_cases h1 : valid HTML_CONTENT <;> by_cases h2 : valid CONTENT <;>
    simp [htmlPhase, contentPhase, commentPhase, htmlGuard, htmlLoop, contentLoop, h1, h2]

theorem htmlPhase_kind (st st' : St) (valid : TokenType → Bool) (k : TokenType)
    (h : htmlPhase st valid = (st', some k)) : k = COMMENT ∨ valid k = true := by
  by_cases hv : (valid HTML_CONTENT && htmlGuard st.rest) = true
  · rcases hcl : htmlLoop st.rest st.pos st.mark false with ⟨st2, b⟩
    cases b
    · have h2 : contentPhase st2 valid = (st', some k) := by
        simpa [htmlPhase, hv, hcl] using h
      exact contentPhase_kind st2 st' valid k h2
    · have hk : k = HTML_CONTENT := by
        simp [htmlPhase, hv, hcl] at h
        exact h.2.symm
      rw [hk]
      have hv2 : valid HTML_CONTENT = true ∧ htmlGuard st.rest = true := by
        simpa using hv
      exact Or.inr hv2.1
  · have h2 : contentPhase st valid = (st', some k) := by
      simpa [htmlPhase, hv] using h
    exact contentPhase_kind st st' valid k h2

/-! ### Claims -/

/-- Claim C1 (confirmed): the directive-content matcher, when it emits a token,
either stops with the read position at the marked end (end of input, a `<`
boundary, or a trailing lone `{`), or stops one character past the marked end
with that unmarked character being a `{` immediately followed by `{`, `%`, or
`#` — the delimiter-opening `{` is never part of the emitted span.  On
`"hello {{"` with only CONTENT requested the scan emits CONTENT with marked
span of length 6 (`"hello "`), and on `"a{b"` it emits CONTENT with the lone
`{` included (span of length 3). -/
theorem claim1_content_delimiter_stop :
    (∀ (l : List Char) (p : Nat) (h : Bool) (st : St),
        contentLoop l p p h = (st, true) →
          st.pos = st.mark ∨
            (st.pos = st.mark + 1 ∧ l.drop (st.mark - p) = '{' :: st.rest ∧
              ∃ d r, st.rest = d :: r ∧ (d = '{' ∨ d = '%' ∨ d = '#')))
    ∧ scan ['h', 'e', 'l', 'l', 'o', ' ', '{', '{'] onlyCONTENT = (⟨['{'], 7, 6⟩, some CONTENT)
    ∧ List.take 6 ['h', 'e', 'l', 'l', 'o', ' ', '{', '{'] = ['h', 'e', 'l', 'l', 'o', ' ']
    ∧ scan ['a', '{', 'b'] onlyCONTENT = (⟨[], 3, 3⟩, some CONTENT)
    ∧ List.take 3 ['a', '{', 'b'] = ['a', '{', 'b'] := by
  refine ⟨?_, by decide, by decide, by decide, by decide⟩
  intro l p h st heq
  have h1 : (contentLoop l p p h).1 = st := by rw [heq]
  have h2 : (contentLoop l p p h).2 = true := by rw [heq]
  obtain ⟨_, hsh⟩ := contentLoop_stop l p h
  rcases hsh h2 with hA | ⟨hB1, hB2, hB3⟩
  · left
    rw [← h1]
    exact hA
  · right
    rw [← h1]
    exact ⟨hB1, hB2, hB3⟩

/-- Witness for C1: on input `"x{{"` the content matcher stops before the
delimiter-opening `{` with one consumed-but-unmarked character. -/
theorem claim1_witness :
    (⟨['{'], 2, 1⟩ : St).pos = (⟨['{'], 2, 1⟩ : St).mark ∨
      ((⟨['{'], 2, 1⟩ : St).pos = (⟨['{'], 2, 1⟩ : St).mark + 1 ∧
        List.drop ((⟨['{'], 2, 1⟩ : St).mark - 0) ['x', '{', '{'] =
          '{' :: (⟨['{'], 2, 1⟩ : St).rest ∧
        ∃ d r, (⟨['{'], 2, 1⟩ : St).rest = d :: r ∧ (d = '{' ∨ d = '%' ∨ d = '#')) :=
  claim1_content_delimiter_stop.1 ['x', '{', '{'] 0 false ⟨['{'], 2, 1⟩ (by decide)

/-- Claim C5 counterexample: on input `"{{"` with only CONTENT requested, the
content matcher declines to match (no token), yet the read position has moved
from 0 (the post-whitespace position) to 1 — the matcher consumed the leading
`{` despite declining, contradicting the claim that a declining matcher leaves
the cursor where it found it. -/
theorem claim5_counterexample :
    (scan ['{', '{'] onlyCONTENT).2 = none ∧
      (skipWsL ['{', '{'] 0).2 = 0 ∧
      (scan ['{', '{'] onlyCONTENT).1.pos = 1 := by decide

/-- Claim C5 (amended): the HTML matcher leaves the lexer state unchanged
whenever it declines; the directive-content matcher, when it declines, leaves
the state unchanged except when the lookahead was `{` followed by `{`, `%`, or
`#`, in which case exactly that one `{` has been consumed (so the comment
matcher sees the character after it). -/
theorem claim5_no_leak_amended :
    (∀ (l : List Char) (p m : Nat) (st : St),
        htmlLoop l p m false = (st, false) → st = ⟨l, p, m⟩)
    ∧ (∀ (l : List Char) (p : Nat) (st : St),
        contentLoop l p p false = (st, false) →
          st = ⟨l, p, p⟩ ∨
            ∃ d r, l = '{' :: d :: r ∧ (d = '{' ∨ d = '%' ∨ d = '#') ∧
              st = ⟨d :: r, p + 1, p⟩) := by
  constructor
  · intro l p m st h
    rw [htmlLoop_takeWhile] at h
    by_cases h0 : (l.takeWhile keepHtml).length = 0
    · rw [if_pos h0] at h
      have h1 : (⟨l, p, m⟩ : St) = st := congrArg Prod.fst h
      exact h1.symm
    · rw [if_neg h0] at h
      have h2 : true = false := congrArg Prod.snd h
      exact absurd h2 (by simp)
  · intro l p st h
    have h2 : (contentLoop l p p false).2 = false := by rw [h]
    have h1 : (contentLoop l p p false).1 = st := by rw [h]
    rcases contentLoop_decline l p h2 with hA | ⟨d, r, hl, hd, hB⟩
    · left
      rw [← h1]
      exact hA
    · right
      exact ⟨d, r, hl, hd, by rw [← h1]; exact hB⟩

/-- Witness for the amended C5: on input `"{#"` the declining content matcher
has consumed exactly the `{`. -/
theorem claim5_witness :
    (⟨['#'], 1, 0⟩ : St) = ⟨['{', '#'], 0, 0⟩ ∨
      ∃ d r, ['{', '#'] = '{' :: d :: r ∧ (d = '{' ∨ d = '%' ∨ d = '#') ∧
        (⟨['#'], 1, 0⟩ : St) = ⟨d :: r, 0 + 1, 0⟩ :=
  claim5_no_leak_amended.2 ['{', '#'] 0 ⟨['#'], 1, 0⟩ (by decide)

/-- Claim C6 (confirmed): a successful scan only ever emits a kind that is in
the requested set, or COMMENT, which is attempted without consulting the set —
it fires on a `#` lookahead even with the empty requested set. -/
theorem claim6_requested_set :
    (∀ (input : List Char) (valid : TokenType → Bool) (st : St) (k : TokenType),
        scan input valid = (st, some k) → k = COMMENT ∨ valid k = true)
    ∧ scan ['#', 'x', '#', '}'] noneValid = (⟨[], 4, 4⟩, some COMMENT) := by
  constructor
  · intro input valid st k h
    rw [scan_def] at h
    exact htmlPhase_kind _ st valid k h
  · decide

/-- Witness for C6 at a concrete successful scan. -/
theorem claim6_witness :
    HTML_CONTENT = COMMENT ∨ onlyHTML HTML_CONTENT = true :=
  claim6_requested_set.1 ['a'] onlyHTML ⟨[], 1, 1⟩ HTML_CONTENT (by decide)

/-- Claim C7 counterexample: the enum ordinals are not in the stated priority
order — HTML-run does not come first (its ordinal is 2, not below CONTENT). -/
theorem claim7_counterexample :
    ¬(TokenType.ordinal HTML_CONTENT < TokenType.ordinal CONTENT ∧
        TokenType.ordinal CONTENT < TokenType.ordinal COMMENT) := by decide

/-- Claim C7 (amended): the token-kind enumeration has exactly the 3 members
CONTENT, COMMENT, HTML_CONTENT with ordinals 0, 1, 2 — declaration order, not
the priority (attempt) order of the matchers. -/
theorem claim7_ordinals_amended :
    (∀ t : TokenType, t = CONTENT ∨ t = COMMENT ∨ t = HTML_CONTENT)
    ∧ TokenType.ordinal CONTENT = 0
    ∧ TokenType.ordinal COMMENT = 1
    ∧ TokenType.ordinal HTML_CONTENT = 2
    ∧ CONTENT ≠ COMMENT ∧ CONTENT ≠ HTML_CONTENT ∧ COMMENT ≠ HTML_CONTENT := by
  refine ⟨fun t => ?_, by decide⟩
  cases t
  · exact Or.inl rfl
  · exact Or.inr (Or.inl rfl)
  · exact Or.inr (Or.inr rfl)

/-- Witness for the amended C7 at the CONTENT member. -/
theorem claim7_witness :
    CONTENT = CONTENT ∨ CONTENT = COMMENT ∨ CONTENT = HTML_CONTENT :=
  claim7_ordinals_amended.1 CONTENT

/-- Claim C9 (confirmed): on input consisting only of whitespace characters
(including the empty input), the scan terminates with no match, the whitespace
fully skipped, for every requested-kinds set. -/
theorem claim9_whitespace_total :
    ∀ (valid : TokenType → Bool) (l : List Char),
      (∀ c ∈ l, iswspace c = true) →
      scan l valid = (⟨[], l.length, l.length⟩, none) := by
  intro valid l hws
  have h0 : skipWsL l 0 = ([], l.length) := by simpa using skipWsL_allWs l 0 hws
  exact scan_none_of_emptyRest l valid l.length h0

/-- Witness for C9 on a two-character whitespace input with all kinds
requested. -/
theorem claim9_witness :
    scan [' ', '\t'] (fun _ => true) = (⟨[], 2, 2⟩, none) := by
  have h := claim9_whitespace_total (fun _ => true) [' ', '\t'] (by decide)
  simpa using h

/-- Claim C2 (confirmed): with HTML_CONTENT requested and a post-whitespace
lookahead that is neither `<` nor `{`, the scan consumes and marks the maximal
run of characters up to the first `<`, `{`, or end of input, and succeeds with
the HTML kind (the run is nonempty since the first character qualifies); at
end of input the matcher consumes nothing and the scan fails; with a `{`
lookahead the HTML matcher consumes nothing and (with only HTML requested) the
scan fails.  Concretely `"abc<div>"` yields HTML with span of length 3 and `<`
unconsumed, and `"{{ x }}"` yields no match with nothing consumed. -/
theorem claim2_html_run :
    (∀ (input : List Char) (valid : TokenType → Bool) (c : Char) (r : List Char) (p0 : Nat),
        valid HTML_CONTENT = true →
        skipWsL input 0 = (c :: r, p0) →
        ¬(c = '<' ∨ c = '{') →
        scan input valid =
            (⟨(c :: r).drop ((c :: r).takeWhile keepHtml).length,
              p0 + ((c :: r).takeWhile keepHtml).length,
              p0 + ((c :: r).takeWhile keepHtml).length⟩, some HTML_CONTENT) ∧
          1 ≤ ((c :: r).takeWhile keepHtml).length)
    ∧ (∀ (input : List Char) (valid : TokenType → Bool) (p0 : Nat),
        skipWsL input 0 = ([], p0) →
        scan input valid = (⟨[], p0, p0⟩, none))
    ∧ (∀ (input : List Char) (r : List Char) (p0 : Nat),
        skipWsL input 0 = ('{' :: r, p0) →
        scan input onlyHTML = (⟨'{' :: r, p0, p0⟩, none))
    ∧ scan ['a', 'b', 'c', '<', 'd', 'i', 'v', '>'] onlyHTML =
        (⟨['<', 'd', 'i', 'v', '>'], 3, 3⟩, some HTML_CONTENT)
    ∧ scan ['{', '{', ' ', 'x', ' ', '}', '}'] onlyHTML =
        (⟨['{', '{', ' ', 'x', ' ', '}', '}'], 0, 0⟩, none) := by
  refine ⟨?_, ?_, ?_, by decide, by decide⟩
  · intro input valid c r p0 hvalid hws hc
    have hguard : htmlGuard (c :: r) = true := by simp [htmlGuard, hc]
    have hkeep : keepHtml c = true := by simp [keepHtml, hc]
    have hlen : 1 ≤ ((c :: r).takeWhile keepHtml).length := by
      simp [List.takeWhile_cons, hkeep]
    refine ⟨?_, hlen⟩
    rw [scan_def, hws]
    have hcond : (valid HTML_CONTENT && htmlGuard (c :: r)) = true := by
      simp [hvalid, hguard]
    have hloop := htmlLoop_takeWhile (c :: r) p0 p0 false
    rw [if_neg (by omega : ¬((c :: r).takeWhile keepHtml).length = 0)] at hloop
    simp [htmlPhase, hcond, hloop]
  · intro input valid p0 hws
    exact scan_none_of_emptyRest input valid p0 hws
  · intro input r p0 hws
    rw [scan_def, hws]
    simp [htmlPhase, contentPhase, commentPhase, htmlGuard, onlyHTML,
      show ('{' : Char) ≠ '#' from by decide]

/-- Witness for C2 on input `"ab"` with only HTML requested. -/
theorem claim2_witness :
    (scan ['a', 'b'] onlyHTML =
        (⟨(['a', 'b'].drop (['a', 'b'].takeWhile keepHtml).length),
          0 + (['a', 'b'].takeWhile keepHtml).length,
          0 + (['a', 'b'].takeWhile keepHtml).length⟩, some HTML_CONTENT) ∧
      1 ≤ (['a', 'b'].takeWhile keepHtml).length) :=
  claim2_html_run.1 ['a', 'b'] onlyHTML 'a' ['b'] 0 (by decide) (by decide) (by decide)

/-- Claim C3 (confirmed, reading "consumes at least one character" as
"successfully marks at least one character", as the spec's priority clause
states): the matchers are attempted in the order HTML-run, directive-content,
comment; the first applicable successful matcher determines the result — a
successful HTML matcher wins regardless of the other flags, the content
matcher wins when the HTML matcher was not applicable or not successful, the
comment matcher fires last; with both HTML and CONTENT requested and a letter
lookahead, HTML wins. -/
theorem claim3_priority_order :
    (∀ (input : List Char) (valid : TokenType → Bool) (r0 : List Char) (p0 : Nat),
        valid HTML_CONTENT = true →
        skipWsL input 0 = (r0, p0) →
        htmlGuard r0 = true → r0 ≠ [] →
        (scan input valid).2 = some HTML_CONTENT)
    ∧ (∀ (input : List Char) (valid : TokenType → Bool) (r0 : List Char) (p0 : Nat),
        skipWsL input 0 = (r0, p0) →
        (valid HTML_CONTENT = false ∨ htmlGuard r0 = false ∨ r0 = []) →
        valid CONTENT = true →
        (contentLoop r0 p0 p0 false).2 = true →
        (scan input valid).2 = some CONTENT)
    ∧ (∀ (input : List Char) (r : List Char) (p0 : Nat),
        skipWsL input 0 = ('#' :: r, p0) →
        closerFound r = true →
        (scan input noneValid).2 = some COMMENT)
    ∧ scan ['a', 'b', '{', '{'] bothHC = (⟨['{', '{'], 2, 2⟩, some HTML_CONTENT) := by
  refine ⟨?_, ?_, ?_, by decide⟩
  · intro input valid r0 p0 hvalid hws hguard hne
    obtain ⟨c, r, rfl⟩ : ∃ c r, r0 = c :: r := by
      cases r0 with
      | nil => exact absurd rfl hne
      | cons c r => exact ⟨c, r, rfl⟩
    have hc : ¬(c = '<' ∨ c = '{') := by
      intro hcc
      simp [htmlGuard, hcc] at hguard
    have hkeep : keepHtml c = true := by simp [keepHtml, hc]
    have hlen : 1 ≤ ((c :: r).takeWhile keepHtml).length := by
      simp [List.takeWhile_cons, hkeep]
    rw [scan_def, hws]
    have hcond : (valid HTML_CONTENT && htmlGuard (c :: r)) = true := by
      simp [hvalid, hguard]
    have hloop := htmlLoop_takeWhile (c :: r) p0 p0 false
    rw [if_neg (by omega : ¬((c :: r).takeWhile keepHtml).length = 0)] at hloop
    simp [htmlPhase, hcond, hloop]
  · intro input valid r0 p0 hws hfailfirst hvc hcsucc
    rw [scan_def, hws]
    have hstep : htmlPhase ⟨r0, p0, p0⟩ valid = contentPhase ⟨r0, p0, p0⟩ valid := by
      rcases hfailfirst with h | h | h
      · simp [htmlPhase, h]
      · simp [htmlPhase, h]
      · subst h
        by_cases h1 : valid HTML_CONTENT <;>
          simp [htmlPhase, htmlGuard, htmlLoop, h1]
    rcases hcl : contentLoop r0 p0 p0 false with ⟨st2, b⟩
    have hb : b = true := by
      rw [hcl] at hcsucc
      exact hcsucc
    subst hb
    simp [hstep, contentPhase, hvc, hcl]
  · intro input r p0 hws hclose
    rw [scan_def, hws]
    rcases hcl : commentLoop r (p0 + 1) p0 with ⟨st2, b⟩
    have hb : b = true := by
      have h6 := commentLoop_closerFound r (p0 + 1) p0
      rw [hcl] at h6
      simpa [hclose] using h6
    subst hb
    simp [htmlPhase, contentPhase, commentPhase, noneValid, hcl]

/-- Witness for C3: the three priority conjuncts at concrete inputs. -/
theorem claim3_witness :
    (scan ['a', 'b'] bothHC).2 = some HTML_CONTENT ∧
      (scan ['a', '{', 'b'] onlyCONTENT).2 = some CONTENT ∧
      (scan ['#', 'z', '#', '}'] noneValid).2 = some COMMENT :=
  ⟨claim3_priority_order.1 ['a', 'b'] bothHC ['a', 'b'] 0 (by decide) (by decide)
      (by decide) (by decide),
   claim3_priority_order.2.1 ['a', '{', 'b'] onlyCONTENT ['a', '{', 'b'] 0 (by decide)
      (Or.inl (by decide)) (by decide) (by decide),
   claim3_priority_order.2.2.1 ['#', 'z', '#', '}'] ['z', '#', '}'] 0 (by decide)
      (by decide)⟩

/-- Claim C4 counterexample: the input `"#a##}"` starts with `#`, contains a
body `#` (at index 2) not followed by `}`, and a closer `#}` exists later (at
indices 3-4, witnessed by hasCloser), yet the scan returns no match: the
comment matcher blindly consumed the closer's `#` right after its failed
closer check. -/
theorem claim4_counterexample :
    hasCloser ['#', 'a', '#', '#', '}'] = true ∧
      scan ['#', 'a', '#', '#', '}'] noneValid = (⟨[], 5, 4⟩, none) := by decide

/-- Claim C4 (amended): a `#` in the comment body that is not immediately
followed by `}` is treated as body text and scanning continues, but the
character right after that `#` is consumed without being examined; a later
closer `#}` is therefore still found provided its `#` is not the character
immediately following such a failed check: for bodies of the shape
`u # c v #}` with no `#` in `u` or `v` and `c ≠ }`, the comment matcher
succeeds and marks the whole input. -/
theorem claim4_nested_hash_amended (u v : List Char) (c : Char)
    (hu : ∀ x ∈ u, x ≠ '#') (hc : c ≠ '}') (hv : ∀ x ∈ v, x ≠ '#') :
    scan ('#' :: (u ++ '#' :: c :: (v ++ ['#', '}']))) noneValid =
      (⟨[], u.length + v.length + 5, u.length + v.length + 5⟩, some COMMENT) := by
  rw [scan_hash_noneValid]
  obtain ⟨m1, h1⟩ := commentLoop_skipRun u ('#' :: c :: (v ++ ['#', '}'])) 1 0 hu
  have h2 : commentLoop ('#' :: c :: (v ++ ['#', '}'])) (1 + u.length) m1 =
      commentLoop (v ++ ['#', '}']) (1 + u.length + 2) (1 + u.length) :=
    commentLoop_hashstep c (v ++ ['#', '}']) (1 + u.length) m1 hc
  obtain ⟨m2, h3⟩ := commentLoop_skipRun v ['#', '}'] (1 + u.length + 2) (1 + u.length) hv
  have h4 : commentLoop ['#', '}'] (1 + u.length + 2 + v.length) m2 =
      (⟨[], 1 + u.length + 2 + v.length + 2, 1 + u.length + 2 + v.length + 2⟩, true) :=
    commentLoop_close [] (1 + u.length + 2 + v.length) m2
  have harith : 1 + u.length + 2 + v.length + 2 = u.length + v.length + 5 := by omega
  have hcl : commentLoop (u ++ '#' :: c :: (v ++ ['#', '}'])) 1 0 =
      (⟨[], u.length + v.length + 5, u.length + v.length + 5⟩, true) := by
    rw [h1, h2, h3, h4, harith]
  simp [commentPhase, hcl]

/-- Witness for the amended C4: input `"#a#bc#}"` succeeds as a comment
spanning all 7 characters. -/
theorem claim4_witness :
    scan ('#' :: (['a'] ++ '#' :: 'b' :: (['c'] ++ ['#', '}']))) noneValid =
      (⟨[], ['a'].length + ['c'].length + 5, ['a'].length + ['c'].length + 5⟩, some COMMENT) :=
  claim4_nested_hash_amended ['a'] ['c'] 'b' (by decide) (by decide) (by decide)

/-- Claim C8 (confirmed): the comment example `"# this is a comment #}"` is
matched as a COMMENT spanning the whole 22-character input including both the
opening `#` and the closing `#}`; an unterminated comment such as
`"# unterminated"` yields no match, and in general any input starting with `#`
that contains no `#}` substring at all yields no match rather than a partial
comment token. -/
theorem claim8_unterminated :
    scan ['#', ' ', 't', 'h', 'i', 's', ' ', 'i', 's', ' ', 'a', ' ',
          'c', 'o', 'm', 'm', 'e', 'n', 't', ' ', '#', '}'] noneValid =
      (⟨[], 22, 22⟩, some COMMENT)
    ∧ (scan ['#', ' ', 'u', 'n', 't', 'e', 'r', 'm', 'i', 'n', 'a', 't', 'e', 'd']
        noneValid).2 = none
    ∧ (∀ r : List Char, hasCloser ('#' :: r) = false →
        (scan ('#' :: r) noneValid).2 = none) := by
  refine ⟨by decide, by decide, ?_⟩
  intro r hnc
  rw [scan_hash_noneValid]
  have hr : hasCloser r = false := hasCloser_tail '#' r hnc
  have hcf : closerFound r = false := by
    cases hcl2 : closerFound r
    · rfl
    · exact absurd (closerFound_imp_hasCloser r hcl2) (by simp [hr])
  rcases hcl : commentLoop r (0 + 1) 0 with ⟨st2, b⟩
  have hb : b = false := by
    have h6 := commentLoop_closerFound r (0 + 1) 0
    rw [hcl] at h6
    simpa [hcf] using h6
  subst hb
  simp [commentPhase, hcl]

/-- Witness for C8 on the closer-free input `"#x"`. -/
theorem claim8_witness :
    (scan ['#', 'x'] noneValid).2 = none :=
  claim8_unterminated.2.2 ['x'] (by decide)

/-- Claim C10 counterexample: on `"{###}"` with CONTENT requested, a closer
`#}` exists in the input (hasCloser), yet the scan does not emit COMMENT —
the comment matcher's discipline skips the closer's `#` after a failed check,
so "a closer exists" is not the right side condition of the claimed iff. -/
theorem claim10_counterexample :
    onlyCONTENT CONTENT = true ∧
      hasCloser ['{', '#', '#', '#', '}'] = true ∧
      (scan ['{', '#', '#', '#', '}'] onlyCONTENT).2 = none := by decide

/-- Claim C10 (amended): for input whose post-whitespace remainder begins with
`{` then `#`, the scan emits COMMENT iff CONTENT is in the requested set and
the comment matcher's scanning discipline finds a closer in the remainder
after the `{#` (closerFound); with CONTENT not requested the comment branch
sees `{` and the scan returns no match, so such comments are never recognized
on their own. -/
theorem claim10_gated_comment_amended :
    ∀ (input : List Char) (valid : TokenType → Bool) (r : List Char) (p0 : Nat),
      skipWsL input 0 = ('{' :: '#' :: r, p0) →
      (((scan input valid).2 = some COMMENT) ↔
          (valid CONTENT = true ∧ closerFound r = true))
        ∧ (valid CONTENT = false → (scan input valid).2 = none) := by
  intro input valid r p0 hws
  rw [scan_def, hws]
  have hguard : htmlGuard ('{' :: '#' :: r) = false := by simp [htmlGuard]
  have hstep : htmlPhase ⟨'{' :: '#' :: r, p0, p0⟩ valid =
      contentPhase ⟨'{' :: '#' :: r, p0, p0⟩ valid := by
    simp [htmlPhase, hguard]
  rw [hstep]
  by_cases hvc : valid CONTENT
  · have hcstep : contentLoop ('{' :: '#' :: r) p0 p0 false =
        (⟨'#' :: r, p0 + 1, p0⟩, false) := by
      simp [contentLoop]
    rcases hcl : commentLoop r (p0 + 1 + 1) p0 with ⟨st2, b⟩
    have hb : b = closerFound r := by
      have h6 := commentLoop_closerFound r (p0 + 1 + 1) p0
      rw [hcl] at h6
      exact h6
    subst hb
    have hmain : contentPhase ⟨'{' :: '#' :: r, p0, p0⟩ valid =
        (st2, if closerFound r = true then some COMMENT else none) := by
      cases hcb : closerFound r
      · rw [hcb] at hcl
        simp [contentPhase, hvc, hcstep, commentPhase, hcl, hcb]
      · rw [hcb] at hcl
        simp [contentPhase, hvc, hcstep, commentPhase, hcl, hcb]
    rw [hmain]
    constructor
    · by_cases hcb : closerFound r = true <;> simp [hcb, hvc]
    · intro hfalse
      simp [hvc] at hfalse
  · have hmain : contentPhase ⟨'{' :: '#' :: r, p0, p0⟩ valid =
        (⟨'{' :: '#' :: r, p0, p0⟩, none) := by
      simp [contentPhase, hvc, commentPhase, show ('{' : Char) ≠ '#' from by decide]
    rw [hmain]
    constructor
    · simp [hvc]
    · intro _
      rfl

/-- Witness for the amended C10 on input `"{#x#}"` with only CONTENT
requested. -/
theorem claim10_witness :
    (((scan ['{', '#', 'x', '#', '}'] onlyCONTENT).2 = some COMMENT) ↔
        (onlyCONTENT CONTENT = true ∧ closerFound ['x', '#', '}'] = true))
      ∧ (onlyCONTENT CONTENT = false →
          (scan ['{', '#', 'x', '#', '}'] onlyCONTENT).2 = none) :=
  claim10_gated_comment_amended ['{', '#', 'x', '#', '}'] onlyCONTENT ['x', '#', '}'] 0
    (by decide)

end TwigScanner
